import Mathlib

/-!
Verification of the Arduino LCD word-wrap demo and the Bluetooth command
dispatch demo.

The embedding follows the C++ sources:
* `printStringToLCD` / `printWord` scan a serial buffer and emit LCD commands
  (cursor moves, clears, delays, character runs).  Machine `uint8_t` values
  are modelled as `Nat`; the embedding is exact for buffers of length at most
  254 (for a buffer of length 255 the C++ loop condition
  `offset < strLength + 1` never fails for a `uint8_t` offset, so the C++
  code does not terminate there).
* `String::toCharArray(buf, n)` copies only `n - 1` characters and writes a
  NUL terminator; the scan loop also reads one uninitialized stack byte past
  the terminator.  That byte is modelled by the explicit `junk` parameter.
* `String::substring(left, right)` swaps reversed arguments and clamps to the
  string length, as in the Arduino `WString` implementation.
-/

def CHARS_PER_LINE : Nat := 16

def NUM_LINES : Nat := 2

def FRAME_DELAY : Nat := 3000

/-- Commands that the renderer issues against the LCD device
(`lcd->print`, `lcd->setCursor`, `lcd->clear`, `delay`). -/
inductive LCDCommand where
  | print (text : List Char)
  | setCursor (col row : Nat)
  | clear
  | delayMs (ms : Nat)
deriving DecidableEq, Repr

/-- The five `uint8_t` variables threaded by reference through `printWord`,
minus `offset` (which `printWord` reads but never writes). -/
structure RenderState where
  indexSpace : Nat
  lastSpace : Nat
  wordLength : Nat
  currRow : Nat
deriving DecidableEq, Repr

/-- Arduino `String::substring(left, right)`: swaps the arguments when they
are reversed, returns the empty string when `left >= len`, clamps `right`
to the length, and yields the characters in `[left, right)`. -/
def substringA (s : List Char) (left right : Nat) : List Char :=
  let l := if right < left then right else left
  let r := if right < left then left else right
  if s.length ≤ l then [] else (s.take (min r s.length)).drop l

/-- The body of `printWord` from the LCD demo.  The fit test
`indexSpace + wordLength - 1 < CHARS_PER_LINE` is computed in `int` in C++;
over the reachable (non-negative) values the truncated `Nat` subtraction
agrees with it (both sides are `true` when `indexSpace + wordLength = 0`).
Returns the updated reference bundle and the emitted commands, in order. -/
def printWord (s : List Char) (st : RenderState) (offset : Nat) :
    RenderState × List LCDCommand :=
  if st.indexSpace + st.wordLength - 1 < CHARS_PER_LINE then
    (⟨st.indexSpace + st.wordLength, offset, 0, st.currRow⟩,
      [LCDCommand.print (substringA s st.lastSpace (st.lastSpace + st.wordLength))])
  else
    (⟨0 + st.wordLength, offset, 0, if st.currRow = 1 then 0 else 1⟩,
      (if st.currRow = 1 then [LCDCommand.delayMs FRAME_DELAY, LCDCommand.clear] else [])
        ++ [LCDCommand.setCursor 0 (if st.currRow = 1 then 0 else 1),
            LCDCommand.print (substringA s (st.lastSpace + 1) (st.lastSpace + st.wordLength))])

/-- The stack array filled by `toCharArray(stringBuffer, strLength)` as the
scan loop reads it (indices `0 .. strLength`): the first `strLength - 1`
characters of the buffer, then the NUL terminator, then one uninitialized
byte `junk` at index `strLength`. -/
def scanBuf (junk : Char) (s : List Char) : List Char :=
  if s.length = 0 then [junk]
  else s.take (s.length - 1) ++ [Char.ofNat 0, junk]

/-- The scan loop of `printStringToLCD`: for each index `offset` in the char
array, flush the current word if the character is a space, then increment
`wordLength`. -/
def renderLoop (s : List Char) : List Char → Nat → RenderState → RenderState × List LCDCommand
  | [], _, st => (st, [])
  | ch :: rest, offset, st =>
    let r1 := if ch = ' ' then printWord s st offset else (st, [])
    let st2 : RenderState :=
      ⟨r1.1.indexSpace, r1.1.lastSpace, r1.1.wordLength + 1, r1.1.currRow⟩
    let r2 := renderLoop s rest (offset + 1) st2
    (r2.1, r1.2 ++ r2.2)

/-- The commands emitted by the scan loop alone (everything before the
terminal end-of-buffer flush). -/
def renderLoopOut (junk : Char) (s : List Char) : List LCDCommand :=
  (renderLoop s (scanBuf junk s) 0 ⟨0, 0, 0, 0⟩).2

/-- The state of the reference bundle when the scan loop finishes. -/
def renderLoopState (junk : Char) (s : List Char) : RenderState :=
  (renderLoop s (scanBuf junk s) 0 ⟨0, 0, 0, 0⟩).1

/-- The whole of `printStringToLCD`: run the scan loop over the char array,
then perform the final flush with `offset = strLength + 1` (the value of
`offset` when the loop exits). -/
def printStringToLCD (junk : Char) (s : List Char) : List LCDCommand :=
  renderLoopOut junk s ++
    (printWord s (renderLoopState junk s) (s.length + 1)).2

/-- The texts of the `print` commands in a command list, in order. -/
def printPayloads : List LCDCommand → List (List Char)
  | [] => []
  | LCDCommand.print t :: rest => t :: printPayloads rest
  | _ :: rest => printPayloads rest

/-- Number of `print` commands in a command list. -/
def countPrints (cmds : List LCDCommand) : Nat :=
  (printPayloads cmds).length

/-- Number of `print` commands whose text is non-empty. -/
def countNonEmptyPrints (cmds : List LCDCommand) : Nat :=
  ((printPayloads cmds).filter (fun p => !p.isEmpty)).length

/-- Number of space characters in a character list. -/
def countSpaces (s : List Char) : Nat :=
  (s.filter (fun c => c == ' ')).length

/-- Helper for `countWords`: the flag records whether the previous character
was part of a word. -/
def countWordsAux : Bool → List Char → Nat
  | _, [] => 0
  | inWord, c :: rest =>
    if c = ' ' then countWordsAux false rest
    else (if inWord then 0 else 1) + countWordsAux true rest

/-- Number of non-empty whitespace-delimited words (maximal runs of
non-space characters) in a buffer. -/
def countWords (s : List Char) : Nat :=
  countWordsAux false s

/-- Decidable check that every `print` command in a list carries at most one
maximal run of non-space characters (at most one word). -/
def payloadsOneWordB (cmds : List LCDCommand) : Bool :=
  (printPayloads cmds).all (fun p => decide (countWords p ≤ 1))

/-- Decidable check that every `print` command in a list carries only space
characters. -/
def printsOnlySpacesB (cmds : List LCDCommand) : Bool :=
  (printPayloads cmds).all (fun p => p.all (fun c => c == ' '))

/-!  The Bluetooth demo: command tokens and the `updateBluetooth` dispatch. -/

def BLUETOOTH_HELP : String := "HELP"

def WALL_FOLLOW_MODE : String := "WFM"

def LINE_FOLLOW_MODE : String := "LFM"

/-- Observable effects of one `updateBluetooth` dispatch: a line printed to
the LCD via `LCDManager::printStringToLCD`, or a line sent back over the
Bluetooth serial link via `BT.println`. -/
inductive BTOutput where
  | lcdLine (s : String)
  | btLine (s : String)
deriving DecidableEq, Repr

/-- The if/else-if cascade of `updateBluetooth`, given the buffer returned by
`BT.readString()`.  `String::equals` is an exact, case-sensitive `strcmp`. -/
def updateBluetooth (stringBuffer : String) : List BTOutput :=
  if stringBuffer = LINE_FOLLOW_MODE then
    [BTOutput.lcdLine "Line Follower Mode Enabled",
     BTOutput.btLine "Line Follower Mode Enabled"]
  else if stringBuffer = WALL_FOLLOW_MODE then
    [BTOutput.lcdLine "Wall Follower Mode Enabled",
     BTOutput.btLine "Wall Follower Mode Enabled"]
  else if stringBuffer = BLUETOOTH_HELP then
    [BTOutput.btLine "Commands:",
     BTOutput.btLine "WFM -> Enable Wall Follow Mode",
     BTOutput.btLine "LFM -> Enable Line Follow Mode"]
  else
    [BTOutput.btLine "Command not recognized.",
     BTOutput.btLine "Type \"HELP\" to see available commands"]

/-!  Device-address discovery and the guard in `setup`. -/

def DEVICE_NOT_FOUND : Int := -1

def POSSIBLE_ADDRESSES : Nat := 128

/-- The scan of `findDeviceAddress`, abstracting the I2C bus as a predicate
`ack` telling which 7-bit addresses acknowledge.  Addresses `1 .. 127` are
probed in order; on failure the function returns `DEVICE_NOT_FOUND`
converted to its declared `uint8_t` return type, i.e. `(-1) mod 256 = 255`. -/
def findDeviceAddress (ack : Nat → Bool) : Nat :=
  match (List.range' 1 (POSSIBLE_ADDRESSES - 1)).find? ack with
  | some a => a
  | none => ((DEVICE_NOT_FOUND % 256).toNat)

/-- The guard `deviceAddress != DEVICE_NOT_FOUND` in `setup`: the `uint8_t`
value is promoted to `int` and compared with `-1`.  `setup` initializes the
LCD exactly when this is true. -/
def setupInitializesDisplay (ack : Nat → Bool) : Bool :=
  decide ((findDeviceAddress ack : Int) ≠ DEVICE_NOT_FOUND)

/-!  Basic lemmas about the embedding. -/

lemma substringA_full (s : List Char) : substringA s 0 (s.length + 1) = s := by
  unfold substringA
  have h1 : ¬ (s.length + 1 < 0) := by omega
  simp only [if_neg h1]
  by_cases h : s.length = 0
  · rw [if_pos (by omega)]
    exact (List.length_eq_zero.mp h).symm
  · rw [if_neg (by omega)]
    rw [Nat.min_eq_right (Nat.le_succ _), List.take_length, List.drop_zero]

lemma substringA_tail (s : List Char) : substringA s 1 (s.length + 1) = s.drop 1 := by
  unfold substringA
  have h1 : ¬ (s.length + 1 < 1) := by omega
  simp only [if_neg h1]
  by_cases h : s.length ≤ 1
  · rw [if_pos h, List.drop_eq_nil_of_le h]
  · rw [if_neg h, Nat.min_eq_right (Nat.le_succ _), List.take_length]

lemma scanBuf_length (junk : Char) (s : List Char) :
    (scanBuf junk s).length = s.length + 1 := by
  unfold scanBuf
  by_cases h : s.length = 0
  · simp [h]
  · rw [if_neg h]
    simp only [List.length_append, List.length_take, List.length_cons, List.length_nil]
    omega

lemma scanBuf_not_space (junk : Char) (s : List Char) (hj : junk ≠ ' ')
    (hs : ∀ c ∈ s, c ≠ ' ') : ∀ c ∈ scanBuf junk s, c ≠ ' ' := by
  intro c hc
  unfold scanBuf at hc
  by_cases h0 : s.length = 0
  · rw [if_pos h0] at hc
    simp only [List.mem_singleton] at hc
    exact hc ▸ hj
  · rw [if_neg h0] at hc
    rcases List.mem_append.mp hc with h | h
    · exact hs c (List.mem_of_mem_take h)
    · simp only [List.mem_cons, List.mem_singleton, List.not_mem_nil, or_false] at h
      rcases h with h | h
      · rw [h]; decide
      · exact h ▸ hj

lemma renderLoop_no_space (s : List Char) :
    ∀ (lst : List Char) (offset : Nat) (st : RenderState),
      (∀ c ∈ lst, c ≠ ' ') →
      renderLoop s lst offset st =
        (⟨st.indexSpace, st.lastSpace, st.wordLength + lst.length, st.currRow⟩, []) := by
  intro lst
  induction lst with
  | nil => intro offset st _; simp [renderLoop]
  | cons ch rest ih =>
    intro offset st h
    have hch : ¬ (ch = ' ') := h ch (List.mem_cons_self _ _)
    have hrest : ∀ c ∈ rest, c ≠ ' ' := fun c hc => h c (List.mem_cons_of_mem _ hc)
    simp only [renderLoop, if_neg hch]
    rw [ih (offset + 1) _ hrest]
    have : st.wordLength + 1 + rest.length = st.wordLength + (rest.length + 1) := by omega
    simp [this]

lemma printString_no_space (junk : Char) (w : List Char) (hj : junk ≠ ' ')
    (hw : ∀ c ∈ w, c ≠ ' ') :
    printStringToLCD junk w = (printWord w ⟨0, 0, w.length + 1, 0⟩ (w.length + 1)).2 := by
  unfold printStringToLCD renderLoopOut renderLoopState
  rw [renderLoop_no_space w _ 0 _ (scanBuf_not_space junk w hj hw)]
  rw [scanBuf_length]
  simp

lemma printString_single_word (junk : Char) (w : List Char) (hj : junk ≠ ' ')
    (hw : ∀ c ∈ w, c ≠ ' ') :
    printStringToLCD junk w =
      if w.length ≤ 15 then [LCDCommand.print w]
      else [LCDCommand.setCursor 0 1, LCDCommand.print (w.drop 1)] := by
  rw [printString_no_space junk w hj hw]
  unfold printWord
  simp only [Nat.zero_add]
  by_cases h : w.length ≤ 15
  · rw [if_pos (show w.length + 1 - 1 < CHARS_PER_LINE from by
      unfold CHARS_PER_LINE; omega)]
    rw [if_pos h, substringA_full]
  · rw [if_neg (show ¬ (w.length + 1 - 1 < CHARS_PER_LINE) from by
      unfold CHARS_PER_LINE; omega)]
    rw [if_neg h, substringA_tail]
    simp

/-- Claim C2 counterexample: a single word of length exactly 16
(`CHARS_PER_LINE`) is not placed at `(0, 0)` with no row advance: the render
pass moves the cursor to row 1 and prints the word minus its first character,
because the terminal flush sees `wordLength = 17`. -/
theorem claim2_counterexample :
    printStringToLCD (Char.ofNat 0) "ABCDEFGHIJKLMNOP".toList =
      [LCDCommand.setCursor 0 1, LCDCommand.print "BCDEFGHIJKLMNOP".toList] ∧
    "ABCDEFGHIJKLMNOP".toList.length = CHARS_PER_LINE ∧
    [LCDCommand.setCursor 0 1, LCDCommand.print "BCDEFGHIJKLMNOP".toList] ≠
      [LCDCommand.print "ABCDEFGHIJKLMNOP".toList] := by
  refine ⟨by decide, by decide, by decide⟩

/-- Claim C2 (amended): for a single non-space word the fit test at the
terminal flush compares `wordLength = length + 1`, so the exact-fit boundary
is length 15, not 16: a word of length at most 15 yields one placement of the
whole word at the current cursor (row 0, column 0) with no row advance, while
a word of length 16 (or more) fails the fit test and is placed at row 1,
column 0, with its first character dropped. -/
theorem claim2_exact_fit_boundary (junk : Char) (w : List Char)
    (hj : junk ≠ ' ') (hw : ' ' ∉ w) (hL : w.length ≤ 254) :
    printStringToLCD junk w =
      if w.length ≤ 15 then [LCDCommand.print w]
      else [LCDCommand.setCursor 0 1, LCDCommand.print (w.drop 1)] :=
  printString_single_word junk w hj (fun c hc he => hw (he ▸ hc))

theorem claim2_witness :
    ((Char.ofNat 0) ≠ ' ') ∧ (' ' ∉ "ABCDEFGHIJKLMNO".toList) ∧
      ("ABCDEFGHIJKLMNO".toList.length ≤ 254) ∧
    printStringToLCD (Char.ofNat 0) "ABCDEFGHIJKLMNO".toList =
      (if "ABCDEFGHIJKLMNO".toList.length ≤ 15
       then [LCDCommand.print "ABCDEFGHIJKLMNO".toList]
       else [LCDCommand.setCursor 0 1,
             LCDCommand.print ("ABCDEFGHIJKLMNO".toList.drop 1)]) :=
  ⟨by decide, by decide, by decide,
    claim2_exact_fit_boundary _ _ (by decide) (by decide) (by decide)⟩

/-- Claim C3 counterexample: a single word of length `CHARS_PER_LINE + 5`
(21 characters) on an empty display is not placed in full: the emitted
placement is at row 1 and contains only 20 characters — the first character
of the word is dropped by `substring(lastSpace + 1, ...)`. -/
theorem claim3_counterexample :
    printStringToLCD (Char.ofNat 0) "AAAAAAAAAAAAAAAAAAAAA".toList =
      [LCDCommand.setCursor 0 1, LCDCommand.print "AAAAAAAAAAAAAAAAAAAA".toList] ∧
    "AAAAAAAAAAAAAAAAAAAAA".toList.length = CHARS_PER_LINE + 5 ∧
    "AAAAAAAAAAAAAAAAAAAA".toList ≠ "AAAAAAAAAAAAAAAAAAAAA".toList := by
  refine ⟨by decide, by decide, by decide⟩

/-- Claim C3 (amended): a single word no shorter than `CHARS_PER_LINE` is
placed as one contiguous run (one `print` command, never wrapped mid-word) at
column 0 of row 1, but not in full: exactly its first character is dropped,
so the placed run is one character shorter than the word. -/
theorem claim3_overflow_word (junk : Char) (w : List Char)
    (hj : junk ≠ ' ') (hw : ' ' ∉ w) (h16 : CHARS_PER_LINE ≤ w.length)
    (hL : w.length ≤ 254) :
    printStringToLCD junk w =
      [LCDCommand.setCursor 0 1, LCDCommand.print (w.drop 1)] ∧
    (w.drop 1).length + 1 = w.length := by
  have h16' : 16 ≤ w.length := h16
  constructor
  · rw [printString_single_word junk w hj (fun c hc he => hw (he ▸ hc))]
    rw [if_neg (by omega)]
  · rw [List.length_drop]
    omega

theorem claim3_witness :
    ((Char.ofNat 0) ≠ ' ') ∧ (' ' ∉ "AAAAAAAAAAAAAAAAAAAAA".toList) ∧
      (CHARS_PER_LINE ≤ "AAAAAAAAAAAAAAAAAAAAA".toList.length) ∧
      ("AAAAAAAAAAAAAAAAAAAAA".toList.length ≤ 254) ∧
    (printStringToLCD (Char.ofNat 0) "AAAAAAAAAAAAAAAAAAAAA".toList =
      [LCDCommand.setCursor 0 1,
       LCDCommand.print ("AAAAAAAAAAAAAAAAAAAAA".toList.drop 1)] ∧
    ("AAAAAAAAAAAAAAAAAAAAA".toList.drop 1).length + 1 =
      "AAAAAAAAAAAAAAAAAAAAA".toList.length) :=
  ⟨by decide, by decide, by decide, by decide,
    claim3_overflow_word _ _ (by decide) (by decide) (by decide) (by decide)⟩

/-- Claim C5 (confirmed): when a word-flush fails the fit test while
`currRow = 1` (the last row of the 2-row grid), `printWord` emits, in order:
the fixed pause `FRAME_DELAY`, then `clear`, then `setCursor 0 0`, then the
placement — so the pause always precedes the clear, and the word is placed
at row 0. -/
theorem claim5_page_delay_before_clear (s : List Char) (st : RenderState)
    (offset : Nat)
    (hfit : ¬ (st.indexSpace + st.wordLength - 1 < CHARS_PER_LINE))
    (hrow : st.currRow = 1) :
    printWord s st offset =
      (⟨st.wordLength, offset, 0, 0⟩,
       [LCDCommand.delayMs FRAME_DELAY, LCDCommand.clear,
        LCDCommand.setCursor 0 0,
        LCDCommand.print (substringA s (st.lastSpace + 1)
          (st.lastSpace + st.wordLength))]) := by
  unfold printWord
  rw [if_neg hfit]
  simp [hrow]

theorem claim5_witness :
    (¬ ((⟨0, 5, 17, 1⟩ : RenderState).indexSpace +
        (⟨0, 5, 17, 1⟩ : RenderState).wordLength - 1 < CHARS_PER_LINE)) ∧
    ((⟨0, 5, 17, 1⟩ : RenderState).currRow = 1) ∧
    printWord "hello aaaaaaaaaaaaaaaaa".toList (⟨0, 5, 17, 1⟩ : RenderState) 23 =
      (⟨17, 23, 0, 0⟩,
       [LCDCommand.delayMs FRAME_DELAY, LCDCommand.clear,
        LCDCommand.setCursor 0 0,
        LCDCommand.print (substringA "hello aaaaaaaaaaaaaaaaa".toList 6 22)]) :=
  ⟨by decide, by decide,
    claim5_page_delay_before_clear _ _ _ (by decide) (by decide)⟩

/-- Claim C6 (confirmed): when the fit test succeeds, `printWord` emits
exactly one `print` command (no cursor move, no clear, no delay), leaves
`currRow` unchanged, and increases `indexSpace` by exactly `wordLength`;
the placed run is `substring(lastSpace, lastSpace + wordLength)`. -/
theorem claim6_fit_flush (s : List Char) (st : RenderState) (offset : Nat)
    (hfit : st.indexSpace + st.wordLength - 1 < CHARS_PER_LINE) :
    printWord s st offset =
      (⟨st.indexSpace + st.wordLength, offset, 0, st.currRow⟩,
       [LCDCommand.print (substringA s st.lastSpace
         (st.lastSpace + st.wordLength))]) := by
  unfold printWord
  rw [if_pos hfit]

theorem claim6_witness :
    ((⟨3, 7, 4, 0⟩ : RenderState).indexSpace +
      (⟨3, 7, 4, 0⟩ : RenderState).wordLength - 1 < CHARS_PER_LINE) ∧
    printWord "ab cdef gh".toList (⟨3, 7, 4, 0⟩ : RenderState) 11 =
      (⟨7, 11, 0, 0⟩,
       [LCDCommand.print (substringA "ab cdef gh".toList 7 11)]) :=
  ⟨by decide, claim6_fit_flush _ _ _ (by decide)⟩

/-- Claim C8: evaluation of the code at the failing input.  When no I2C
device acknowledges, `findDeviceAddress` returns `DEVICE_NOT_FOUND` converted
to its `uint8_t` return type, i.e. 255 — and the guard
`deviceAddress != DEVICE_NOT_FOUND` in `setup` still evaluates to `true`
(the `uint8_t` 255 is promoted to `int` and compared with `-1`), so `setup`
does NOT skip display initialization. -/
theorem claim8_no_device_still_initializes :
    findDeviceAddress (fun _ => false) = 255 ∧
    setupInitializesDisplay (fun _ => false) = true := by
  refine ⟨by decide, by decide⟩

/-- Claim C9 (confirmed): `updateBluetooth` dispatch is an exact,
case-sensitive string match over the fixed token set: each of "LFM", "WFM",
"HELP" produces its fixed output, and every other buffer produces the fixed
not-recognized response, whose first line is exactly
"Command not recognized.". -/
theorem claim9_dispatch_exact_match (s : String)
    (h1 : s ≠ LINE_FOLLOW_MODE) (h2 : s ≠ WALL_FOLLOW_MODE)
    (h3 : s ≠ BLUETOOTH_HELP) :
    updateBluetooth LINE_FOLLOW_MODE =
      [BTOutput.lcdLine "Line Follower Mode Enabled",
       BTOutput.btLine "Line Follower Mode Enabled"] ∧
    updateBluetooth WALL_FOLLOW_MODE =
      [BTOutput.lcdLine "Wall Follower Mode Enabled",
       BTOutput.btLine "Wall Follower Mode Enabled"] ∧
    updateBluetooth BLUETOOTH_HELP =
      [BTOutput.btLine "Commands:",
       BTOutput.btLine "WFM -> Enable Wall Follow Mode",
       BTOutput.btLine "LFM -> Enable Line Follow Mode"] ∧
    updateBluetooth s =
      [BTOutput.btLine "Command not recognized.",
       BTOutput.btLine "Type \"HELP\" to see available commands"] := by
  refine ⟨by decide, by decide, by decide, ?_⟩
  unfold updateBluetooth
  rw [if_neg h1, if_neg h2, if_neg h3]

theorem claim9_witness :
    ("lfm" ≠ LINE_FOLLOW_MODE) ∧ ("lfm" ≠ WALL_FOLLOW_MODE) ∧
      ("lfm" ≠ BLUETOOTH_HELP) ∧
    (updateBluetooth LINE_FOLLOW_MODE =
      [BTOutput.lcdLine "Line Follower Mode Enabled",
       BTOutput.btLine "Line Follower Mode Enabled"] ∧
    updateBluetooth WALL_FOLLOW_MODE =
      [BTOutput.lcdLine "Wall Follower Mode Enabled",
       BTOutput.btLine "Wall Follower Mode Enabled"] ∧
    updateBluetooth BLUETOOTH_HELP =
      [BTOutput.btLine "Commands:",
       BTOutput.btLine "WFM -> Enable Wall Follow Mode",
       BTOutput.btLine "LFM -> Enable Line Follow Mode"] ∧
    updateBluetooth "lfm" =
      [BTOutput.btLine "Command not recognized.",
       BTOutput.btLine "Type \"HELP\" to see available commands"]) :=
  ⟨by decide, by decide, by decide,
    claim9_dispatch_exact_match "lfm" (by decide) (by decide) (by decide)⟩

/-- Claim C1 counterexample: the empty buffer contains zero non-empty words,
but the render pass still issues one display write command (the terminal
flush prints the empty run), so the write count does not equal the word
count. -/
theorem claim1_counterexample :
    countPrints (printStringToLCD (Char.ofNat 0) []) = 1 ∧
    countWords ([] : List Char) = 0 := by
  refine ⟨by decide, by decide⟩

/-- Claim C4 counterexample: the buffer of three spaces emits two placements
with non-empty text (a one-space run and a two-space run): flushes after the
first carry their delimiting space characters, so the output is not free of
non-empty placements and consecutive spaces are written through. -/
theorem claim4_counterexample :
    printStringToLCD (Char.ofNat 0) "   ".toList =
      [LCDCommand.print [], LCDCommand.print [' '],
       LCDCommand.print [' ', ' ']] ∧
    countNonEmptyPrints (printStringToLCD (Char.ofNat 0) "   ".toList) = 2 := by
  refine ⟨by decide, by decide⟩

/-- Claim C7 counterexample: a single 17-character word fails the fit test,
and the resulting placement at the start of row 1 is not the whole word —
its first character is missing. -/
theorem claim7_counterexample :
    printStringToLCD (Char.ofNat 0) "AAAAAAAAAAAAAAAAA".toList =
      [LCDCommand.setCursor 0 1, LCDCommand.print "AAAAAAAAAAAAAAAA".toList] ∧
    "AAAAAAAAAAAAAAAA".toList ≠ "AAAAAAAAAAAAAAAAA".toList := by
  refine ⟨by decide, by decide⟩

lemma printPayloads_append (a b : List LCDCommand) :
    printPayloads (a ++ b) = printPayloads a ++ printPayloads b := by
  induction a with
  | nil => rfl
  | cons c rest ih => cases c <;> simp [printPayloads, ih]

lemma printWord_countPrints (s : List Char) (st : RenderState) (offset : Nat) :
    countPrints (printWord s st offset).2 = 1 := by
  unfold printWord
  by_cases h : st.indexSpace + st.wordLength - 1 < CHARS_PER_LINE
  · rw [if_pos h]; rfl
  · rw [if_neg h]
    by_cases hr : st.currRow = 1
    · simp only [hr]; rfl
    · simp only [if_neg hr]; rfl

lemma countPrints_append (a b : List LCDCommand) :
    countPrints (a ++ b) = countPrints a + countPrints b := by
  unfold countPrints
  rw [printPayloads_append, List.length_append]

lemma renderLoop_countPrints (s : List Char) :
    ∀ (lst : List Char) (offset : Nat) (st : RenderState),
      countPrints (renderLoop s lst offset st).2 = countSpaces lst := by
  intro lst
  induction lst with
  | nil => intro offset st; rfl
  | cons ch rest ih =>
    intro offset st
    by_cases hch : ch = ' '
    · simp only [renderLoop, if_pos hch]
      rw [countPrints_append, printWord_countPrints, ih]
      simp only [countSpaces, List.filter_cons, hch]
      simp
      omega
    · simp only [renderLoop, if_neg hch]
      rw [countPrints_append, ih]
      have : (ch == ' ') = false := by
        exact beq_eq_false_iff_ne.mpr hch
      simp [countSpaces, List.filter_cons, this, countPrints, printPayloads]

lemma countSpaces_scanBuf (junk : Char) (s : List Char) (hj : junk ≠ ' ') :
    countSpaces (scanBuf junk s) = countSpaces (s.take (s.length - 1)) := by
  have hjb : (junk == ' ') = false := beq_eq_false_iff_ne.mpr hj
  have hzb : ((Char.ofNat 0) == ' ') = false := by decide
  unfold scanBuf
  by_cases h : s.length = 0
  · rw [if_pos h]
    have hnil : s = [] := List.length_eq_zero.mp h
    subst hnil
    simp [countSpaces, List.filter_cons, hjb]
  · rw [if_neg h]
    unfold countSpaces
    rw [List.filter_append, List.length_append]
    have : ([Char.ofNat 0, junk].filter (fun c => c == ' ')) = [] := by
      simp [List.filter_cons, hjb, hzb]
    rw [this]
    simp

/-- Claim C1 (amended): for every buffer of length at most 254 (the range on
which the `uint8_t` index arithmetic is faithful), when the uninitialized
byte read past the copied array is not a space, the render pass issues
exactly `1 + (number of spaces among the first length - 1 characters)`
display write commands — one per in-loop flush plus the terminal flush — and
not the number of non-empty words in the buffer. -/
theorem claim1_write_count (junk : Char) (s : List Char)
    (hj : junk ≠ ' ') (hL : s.length ≤ 254) :
    countPrints (printStringToLCD junk s) =
      1 + countSpaces (s.take (s.length - 1)) := by
  unfold printStringToLCD renderLoopOut renderLoopState
  rw [countPrints_append, renderLoop_countPrints, printWord_countPrints,
      countSpaces_scanBuf junk s hj]
  omega

theorem claim1_witness :
    ((Char.ofNat 0) ≠ ' ') ∧ ("ab cd e".toList.length ≤ 254) ∧
    countPrints (printStringToLCD (Char.ofNat 0) "ab cd e".toList) =
      1 + countSpaces ("ab cd e".toList.take ("ab cd e".toList.length - 1)) :=
  ⟨by decide, by decide, claim1_write_count _ _ (by decide) (by decide)⟩

lemma substringA_sublist (s : List Char) (a b : Nat) :
    (substringA s a b).Sublist s := by
  unfold substringA
  by_cases h : s.length ≤ (if b < a then b else a)
  · rw [if_pos h]; exact List.nil_sublist s
  · rw [if_neg h]
    exact ((List.drop_sublist _ _).trans (List.take_sublist _ _))

lemma printWord_payload_sub (s : List Char) (st : RenderState) (offset : Nat) :
    ∀ p ∈ printPayloads (printWord s st offset).2, ∃ a b, p = substringA s a b := by
  unfold printWord
  by_cases h : st.indexSpace + st.wordLength - 1 < CHARS_PER_LINE
  · rw [if_pos h]
    intro p hp
    simp only [printPayloads, List.mem_singleton] at hp
    exact ⟨_, _, hp⟩
  · rw [if_neg h]
    intro p hp
    rw [printPayloads_append] at hp
    have h2 : printPayloads (if st.currRow = 1
        then [LCDCommand.delayMs FRAME_DELAY, LCDCommand.clear] else []) = [] := by
      by_cases hr : st.currRow = 1
      · rw [if_pos hr]; rfl
      · rw [if_neg hr]; rfl
    rw [h2] at hp
    simp only [List.nil_append, printPayloads, List.mem_singleton] at hp
    exact ⟨_, _, hp⟩

lemma renderLoop_payload_sub (s : List Char) :
    ∀ (lst : List Char) (offset : Nat) (st : RenderState),
      ∀ p ∈ printPayloads (renderLoop s lst offset st).2,
        ∃ a b, p = substringA s a b := by
  intro lst
  induction lst with
  | nil => intro offset st p hp; simp [renderLoop, printPayloads] at hp
  | cons ch rest ih =>
    intro offset st p hp
    by_cases hch : ch = ' '
    · simp only [renderLoop, if_pos hch] at hp
      rw [printPayloads_append] at hp
      rcases List.mem_append.mp hp with h | h
      · exact printWord_payload_sub s st offset p h
      · exact ih (offset + 1) _ p h
    · simp only [renderLoop, if_neg hch] at hp
      rw [printPayloads_append] at hp
      rcases List.mem_append.mp hp with h | h
      · simp [printPayloads] at h
      · exact ih (offset + 1) _ p h

lemma printString_payload_sub (junk : Char) (s : List Char) :
    ∀ p ∈ printPayloads (printStringToLCD junk s), ∃ a b, p = substringA s a b := by
  intro p hp
  unfold printStringToLCD renderLoopOut renderLoopState at hp
  rw [printPayloads_append] at hp
  rcases List.mem_append.mp hp with h | h
  · exact renderLoop_payload_sub s _ 0 _ p h
  · exact printWord_payload_sub s _ _ p h

/-- Claim C4 (amended): the empty buffer emits one placement whose text is
empty (so zero non-empty placements), and an all-space buffer emits
placements whose texts consist only of space characters (each text is a
substring of the buffer).  However, flushes after the first carry their
delimiting space, so an all-space buffer does produce non-empty placements,
and consecutive spaces are written through rather than collapsed. -/
theorem claim4_space_buffers (junk : Char) (s : List Char)
    (hj : junk ≠ ' ') (hs : s.all (fun c => c == ' ') = true)
    (hL : s.length ≤ 254) :
    printStringToLCD junk [] = [LCDCommand.print []] ∧
    printsOnlySpacesB (printStringToLCD junk s) = true := by
  constructor
  · rw [printString_no_space junk [] hj (by intro c hc; cases hc)]
    rfl
  · unfold printsOnlySpacesB
    rw [List.all_eq_true]
    intro p hp
    obtain ⟨a, b, rfl⟩ := printString_payload_sub junk s p hp
    rw [List.all_eq_true]
    intro c hc
    exact (List.all_eq_true.mp hs) c ((substringA_sublist s a b).subset hc)

theorem claim4_witness :
    ((Char.ofNat 0) ≠ ' ') ∧ ("   ".toList.all (fun c => c == ' ') = true) ∧
      ("   ".toList.length ≤ 254) ∧
    (printStringToLCD (Char.ofNat 0) [] = [LCDCommand.print []] ∧
     printsOnlySpacesB (printStringToLCD (Char.ofNat 0) "   ".toList) = true) :=
  ⟨by decide, by decide, by decide,
    claim4_space_buffers _ _ (by decide) (by decide) (by decide)⟩

/-!  Lemmas about `countWords` and substring payloads, used for the
one-word-per-placement invariant. -/

lemma countWordsAux_true_append :
    ∀ (m : List Char), (∀ c ∈ m, c ≠ ' ') →
      ∀ r : List Char, countWordsAux true (m ++ r) = countWordsAux true r := by
  intro m
  induction m with
  | nil => intro _ r; rfl
  | cons c t ih =>
    intro hm r
    have hc : ¬ (c = ' ') := hm c (List.mem_cons_self _ _)
    have ht : ∀ x ∈ t, x ≠ ' ' := fun x hx => hm x (List.mem_cons_of_mem _ hx)
    rw [List.cons_append]
    simp only [countWordsAux, if_neg hc, if_pos rfl]
    rw [ih ht r]
    simp

lemma countWordsAux_true_single (y : Char) : countWordsAux true [y] = 0 := by
  by_cases h : y = ' ' <;> simp [countWordsAux, h]

lemma countWordsAux_false_end (m : List Char) (z : Char) :
    (∀ c ∈ m, c ≠ ' ') → countWordsAux false (m ++ [z]) ≤ 1 := by
  intro hm
  cases m with
  | nil =>
    by_cases h : z = ' ' <;> simp [countWordsAux, h]
  | cons c t =>
    have hc : ¬ (c = ' ') := hm c (List.mem_cons_self _ _)
    have ht : ∀ x ∈ t, x ≠ ' ' := fun x hx => hm x (List.mem_cons_of_mem _ hx)
    rw [List.cons_append]
    simp only [countWordsAux, if_neg hc]
    rw [countWordsAux_true_append t ht [z], countWordsAux_true_single]
    simp

lemma countWords_le_one_of_interior (p : List Char)
    (hp : ∀ c ∈ (p.drop 1).dropLast, c ≠ ' ') : countWords p ≤ 1 := by
  cases p with
  | nil => decide
  | cons x t =>
    rcases List.eq_nil_or_concat t with ht | ⟨m, z, hmz⟩
    · subst ht
      by_cases h : x = ' ' <;> simp [countWords, countWordsAux, h]
    · rw [List.concat_eq_append] at hmz
      subst hmz
      have hm : ∀ c ∈ m, c ≠ ' ' := by
        intro c hc
        apply hp
        simpa [List.dropLast_concat] using hc
      unfold countWords
      by_cases hx : x = ' '
      · simp only [countWordsAux, if_pos hx]
        exact countWordsAux_false_end m z hm
      · simp only [countWordsAux, if_neg hx]
        rw [countWordsAux_true_append m hm [z], countWordsAux_true_single]
        simp

lemma substringA_eq_of_le (s : List Char) (a b : Nat) (hab : a ≤ b) :
    substringA s a b =
      if s.length ≤ a then [] else (s.take (min b s.length)).drop a := by
  unfold substringA
  simp only [if_neg (Nat.not_lt.mpr hab)]

lemma substringA_tail_nonspace (s : List Char) (a b : Nat)
    (hab : a ≤ b) (hbL : b ≤ s.length)
    (hmid : ∀ p, a < p → p < b → s[p]? ≠ some ' ') :
    ∀ c ∈ (substringA s a b).drop 1, c ≠ ' ' := by
  intro c hc
  rw [substringA_eq_of_le s a b hab] at hc
  by_cases hLa : s.length ≤ a
  · rw [if_pos hLa] at hc
    simp at hc
  · rw [if_neg hLa, List.drop_drop] at hc
    obtain ⟨i, hi⟩ := List.mem_iff_getElem?.mp hc
    rw [List.getElem?_drop] at hi
    have hidx : a + 1 + i < min b s.length := by
      by_contra hcon
      rw [List.getElem?_eq_none (by
        rw [List.length_take]
        omega)] at hi
      exact Option.noConfusion hi
    rw [List.getElem?_take_of_lt (by omega)] at hi
    intro hceq
    exact hmid (a + 1 + i) (by omega) (by omega) (by rw [hi, hceq])

lemma substringA_swap_tail_nil (s : List Char) (a : Nat) :
    (substringA s (a + 1) a).drop 1 = [] := by
  unfold substringA
  simp only [if_pos (Nat.lt_succ_self a)]
  by_cases h : s.length ≤ a
  · rw [if_pos h]; rfl
  · rw [if_neg h, List.drop_drop]
    apply List.drop_eq_nil_of_le
    rw [List.length_take]
    omega

lemma substringA_ge (s : List Char) (a b : Nat) (hab : a ≤ b)
    (hbL : s.length ≤ b) : substringA s a b = s.drop a := by
  rw [substringA_eq_of_le s a b hab]
  by_cases h : s.length ≤ a
  · rw [if_pos h, List.drop_eq_nil_of_le h]
  · rw [if_neg h, Nat.min_eq_right hbL, List.take_length]

lemma drop_interior_nonspace (s : List Char) (a : Nat)
    (hmid : ∀ p, a < p → p + 1 < s.length → s[p]? ≠ some ' ') :
    ∀ c ∈ ((s.drop a).drop 1).dropLast, c ≠ ' ' := by
  intro c hc
  rw [List.drop_drop] at hc
  obtain ⟨i, hilen, hieq⟩ := List.mem_iff_getElem.mp hc
  have hlen : i < (s.drop (a + 1)).dropLast.length := hilen
  rw [List.length_dropLast, List.length_drop] at hlen
  simp only [List.getElem_dropLast, List.getElem_drop] at hieq
  intro hceq
  have hidx : a + 1 + i < s.length := by omega
  have hval : s[a + 1 + i]? = some c := by
    rw [List.getElem?_eq_getElem hidx, hieq]
  exact hmid (a + 1 + i) (by omega) (by omega) (by rw [hval, hceq])

/-!  Index lemmas about the scanned array, and the loop invariant. -/

lemma scanBuf_space (junk : Char) (s : List Char) (hj : junk ≠ ' ') (q : Nat)
    (h : (scanBuf junk s)[q]? = some ' ') :
    q + 1 < s.length ∧ s[q]? = some ' ' := by
  unfold scanBuf at h
  by_cases h0 : s.length = 0
  · rw [if_pos h0] at h
    have hq : q < 1 := by
      by_contra hcon
      rw [List.getElem?_eq_none (by simpa using Nat.le_of_not_lt hcon)] at h
      exact Option.noConfusion h
    have hq0 : q = 0 := by omega
    subst hq0
    rw [List.getElem?_cons_zero] at h
    exact absurd (Option.some.inj h) hj
  · rw [if_neg h0] at h
    have htl : (s.take (s.length - 1)).length = s.length - 1 := by
      rw [List.length_take]; omega
    by_cases hq : q < s.length - 1
    · rw [List.getElem?_append_left (by rw [htl]; exact hq)] at h
      rw [List.getElem?_take_of_lt hq] at h
      exact ⟨by omega, h⟩
    · rw [List.getElem?_append_right (by rw [htl]; omega)] at h
      rw [htl] at h
      have hd : q - (s.length - 1) = 0 ∨ q - (s.length - 1) = 1 ∨
          2 ≤ q - (s.length - 1) := by omega
      rcases hd with h1 | h1 | h1
      · rw [h1, List.getElem?_cons_zero] at h
        exact absurd (Option.some.inj h) (by decide)
      · rw [h1, List.getElem?_cons_succ, List.getElem?_cons_zero] at h
        exact absurd (Option.some.inj h) hj
      · rw [List.getElem?_eq_none (by simp; omega)] at h
        exact Option.noConfusion h

lemma scanBuf_getElem_lt (junk : Char) (s : List Char) (q : Nat)
    (h : q + 1 < s.length) :
    (scanBuf junk s)[q]? = s[q]? := by
  unfold scanBuf
  rw [if_neg (by omega)]
  have htl : (s.take (s.length - 1)).length = s.length - 1 := by
    rw [List.length_take]; omega
  rw [List.getElem?_append_left (by rw [htl]; omega)]
  exact List.getElem?_take_of_lt (by omega)

lemma printWord_state (s : List Char) (st : RenderState) (offset : Nat) :
    (printWord s st offset).1.lastSpace = offset ∧
    (printWord s st offset).1.wordLength = 0 := by
  unfold printWord
  by_cases h : st.indexSpace + st.wordLength - 1 < CHARS_PER_LINE
  · rw [if_pos h]; exact ⟨rfl, rfl⟩
  · rw [if_neg h]; exact ⟨rfl, rfl⟩

lemma printPayloads_page_prefix (st : RenderState) :
    printPayloads (if st.currRow = 1
      then [LCDCommand.delayMs FRAME_DELAY, LCDCommand.clear] else []) = [] := by
  by_cases hr : st.currRow = 1
  · rw [if_pos hr]; rfl
  · rw [if_neg hr]; rfl

lemma printWord_payload_tail_nonspace (s : List Char) (st : RenderState)
    (offset : Nat)
    (hinv1 : offset = st.lastSpace + st.wordLength)
    (hofL : offset + 1 < s.length)
    (hmid : ∀ p, st.lastSpace < p → p < offset → s[p]? ≠ some ' ') :
    ∀ q ∈ printPayloads (printWord s st offset).2, ∀ c ∈ q.drop 1, c ≠ ' ' := by
  intro q hq
  unfold printWord at hq
  by_cases h : st.indexSpace + st.wordLength - 1 < CHARS_PER_LINE
  · rw [if_pos h] at hq
    simp only [printPayloads, List.mem_singleton] at hq
    subst hq
    rw [← hinv1]
    exact substringA_tail_nonspace s st.lastSpace offset (by omega) (by omega) hmid
  · rw [if_neg h] at hq
    rw [printPayloads_append, printPayloads_page_prefix] at hq
    simp only [List.nil_append, printPayloads, List.mem_singleton] at hq
    subst hq
    by_cases hwl : st.wordLength = 0
    · intro c hc
      simp only [hwl, Nat.add_zero] at hc
      rw [substringA_swap_tail_nil] at hc
      cases hc
    · rw [← hinv1]
      exact substringA_tail_nonspace s (st.lastSpace + 1) offset (by omega)
        (by omega) (fun p h1 h2 => hmid p (by omega) h2)

lemma renderLoop_cons_space (s : List Char) (rest : List Char) (offset : Nat)
    (st : RenderState) :
    renderLoop s (' ' :: rest) offset st =
      ((renderLoop s rest (offset + 1)
          ⟨(printWord s st offset).1.indexSpace, offset, 1,
           (printWord s st offset).1.currRow⟩).1,
       (printWord s st offset).2 ++
         (renderLoop s rest (offset + 1)
           ⟨(printWord s st offset).1.indexSpace, offset, 1,
            (printWord s st offset).1.currRow⟩).2) := by
  simp only [renderLoop, eq_self_iff_true, if_true,
    (printWord_state s st offset).1, (printWord_state s st offset).2,
    Nat.zero_add]

lemma renderLoop_cons_nonspace (s : List Char) (ch : Char) (rest : List Char)
    (offset : Nat) (st : RenderState) (hch : ¬ (ch = ' ')) :
    renderLoop s (ch :: rest) offset st =
      renderLoop s rest (offset + 1)
        ⟨st.indexSpace, st.lastSpace, st.wordLength + 1, st.currRow⟩ := by
  simp only [renderLoop, if_neg hch, List.nil_append]

lemma renderLoop_invariant (junk : Char) (s : List Char) (hj : junk ≠ ' ') :
    ∀ (lst : List Char) (offset : Nat) (st : RenderState),
      lst = (scanBuf junk s).drop offset →
      offset = st.lastSpace + st.wordLength →
      (∀ p, st.lastSpace < p → p < offset → p + 1 < s.length →
        s[p]? ≠ some ' ') →
      ((renderLoop s lst offset st).1.lastSpace +
          (renderLoop s lst offset st).1.wordLength = offset + lst.length) ∧
      (∀ p, (renderLoop s lst offset st).1.lastSpace < p →
          p < offset + lst.length → p + 1 < s.length → s[p]? ≠ some ' ') ∧
      (∀ q ∈ printPayloads (renderLoop s lst offset st).2,
          ∀ c ∈ q.drop 1, c ≠ ' ') := by
  intro lst
  induction lst with
  | nil =>
    intro offset st hlst hinv1 hinv2
    refine ⟨by simp [renderLoop]; omega, ?_, ?_⟩
    · intro p h1 h2 h3
      exact hinv2 p h1 (by simpa using h2) h3
    · intro q hq
      simp [renderLoop, printPayloads] at hq
  | cons ch rest ih =>
    intro offset st hlst hinv1 hinv2
    have hhead : (scanBuf junk s)[offset]? = some ch := by
      have hh := List.head?_drop (scanBuf junk s) offset
      rw [← hlst] at hh
      simpa using hh.symm
    have hrest : rest = (scanBuf junk s).drop (offset + 1) := by
      have hh : (scanBuf junk s).drop (offset + 1) =
          ((scanBuf junk s).drop offset).drop 1 := by
        rw [List.drop_drop]
      rw [hh, ← hlst, List.drop_succ_cons, List.drop_zero]
    by_cases hch : ch = ' '
    · subst hch
      obtain ⟨hofL, hsq⟩ := scanBuf_space junk s hj offset hhead
      rw [renderLoop_cons_space]
      obtain ⟨ih1, ih2, ih3⟩ := ih (offset + 1)
        ⟨(printWord s st offset).1.indexSpace, offset, 1,
         (printWord s st offset).1.currRow⟩
        hrest rfl
        (by
          intro p h1 h2 h3
          have h1' : offset < p := h1
          exact absurd h1' (by omega))
      refine ⟨?_, ?_, ?_⟩
      · have hg := ih1
        show (renderLoop s rest (offset + 1)
          ⟨(printWord s st offset).1.indexSpace, offset, 1,
           (printWord s st offset).1.currRow⟩).1.lastSpace +
          (renderLoop s rest (offset + 1)
          ⟨(printWord s st offset).1.indexSpace, offset, 1,
           (printWord s st offset).1.currRow⟩).1.wordLength =
          offset + (rest.length + 1)
        omega
      · intro p h1 h2 h3
        have h1' : (renderLoop s rest (offset + 1)
          ⟨(printWord s st offset).1.indexSpace, offset, 1,
           (printWord s st offset).1.currRow⟩).1.lastSpace < p := h1
        exact ih2 p h1' (by
          have h2' : p < offset + (rest.length + 1) := h2
          omega) h3
      · intro q hq
        have hq' : q ∈ printPayloads ((printWord s st offset).2 ++
          (renderLoop s rest (offset + 1)
            ⟨(printWord s st offset).1.indexSpace, offset, 1,
             (printWord s st offset).1.currRow⟩).2) := hq
        rw [printPayloads_append] at hq'
        rcases List.mem_append.mp hq' with hl | hr
        · exact printWord_payload_tail_nonspace s st offset hinv1 hofL
            (fun p h1 h2 => hinv2 p h1 h2 (by omega)) q hl
        · exact ih3 q hr
    · rw [renderLoop_cons_nonspace s ch rest offset st hch]
      obtain ⟨ih1, ih2, ih3⟩ := ih (offset + 1)
        ⟨st.indexSpace, st.lastSpace, st.wordLength + 1, st.currRow⟩
        hrest
        (by show offset + 1 = st.lastSpace + (st.wordLength + 1); omega)
        (by
          intro p h1 h2 h3
          have h1' : st.lastSpace < p := h1
          by_cases hpo : p < offset
          · exact hinv2 p h1' hpo h3
          · have hpe : p = offset := by omega
            subst hpe
            have hse : s[p]? = some ch := by
              rw [← scanBuf_getElem_lt junk s p (by omega)]
              exact hhead
            rw [hse]
            exact fun hcc => hch (Option.some.inj hcc))
      refine ⟨?_, ?_, ?_⟩
      · have hg := ih1
        show (renderLoop s rest (offset + 1)
          ⟨st.indexSpace, st.lastSpace, st.wordLength + 1, st.currRow⟩).1.lastSpace +
          (renderLoop s rest (offset + 1)
          ⟨st.indexSpace, st.lastSpace, st.wordLength + 1, st.currRow⟩).1.wordLength =
          offset + (rest.length + 1)
        omega
      · intro p h1 h2 h3
        exact ih2 p h1 (by
          have h2' : p < offset + (rest.length + 1) := h2
          omega) h3
      · exact ih3

/-- Claim C7 (amended): over every render pass, each placement command
carries at most one maximal run of non-space characters — no word is ever
split across two placements or two rows.  (The second half of the original
claim is corrected separately: a word that fails the fit test is placed at
the start of the next row whole only when the flush is not the first of the
pass; a first-flush overflow word loses its first character, see the
counterexample.) -/
theorem claim7_no_word_split (junk : Char) (s : List Char)
    (hj : junk ≠ ' ') (hL : s.length ≤ 254) :
    payloadsOneWordB (printStringToLCD junk s) = true := by
  unfold payloadsOneWordB
  rw [List.all_eq_true]
  intro q hq
  rw [decide_eq_true_eq]
  apply countWords_le_one_of_interior
  unfold printStringToLCD renderLoopOut renderLoopState at hq
  rw [printPayloads_append] at hq
  have hlen := scanBuf_length junk s
  obtain ⟨m1, m2, m3⟩ := renderLoop_invariant junk s hj (scanBuf junk s) 0
    ⟨0, 0, 0, 0⟩ rfl rfl
    (by intro p h1 h2 h3; exact absurd h2 (by omega))
  rcases List.mem_append.mp hq with hql | hqf
  · intro c hc
    exact m3 q hql c ((List.dropLast_sublist _).subset hc)
  · have hm1 : (renderLoop s (scanBuf junk s) 0 ⟨0, 0, 0, 0⟩).1.lastSpace +
        (renderLoop s (scanBuf junk s) 0 ⟨0, 0, 0, 0⟩).1.wordLength =
        s.length + 1 := by
      rw [m1]
      omega
    unfold printWord at hqf
    by_cases h : (renderLoop s (scanBuf junk s) 0 ⟨0, 0, 0, 0⟩).1.indexSpace +
        (renderLoop s (scanBuf junk s) 0 ⟨0, 0, 0, 0⟩).1.wordLength - 1 <
        CHARS_PER_LINE
    · rw [if_pos h] at hqf
      simp only [printPayloads, List.mem_singleton] at hqf
      subst hqf
      rw [hm1]
      rw [substringA_ge s _ (s.length + 1) (by omega) (by omega)]
      exact drop_interior_nonspace s _
        (fun p h1 h2 => m2 p h1 (by omega) h2)
    · rw [if_neg h] at hqf
      rw [printPayloads_append, printPayloads_page_prefix] at hqf
      simp only [List.nil_append, printPayloads, List.mem_singleton] at hqf
      subst hqf
      by_cases hwl : (renderLoop s (scanBuf junk s) 0 ⟨0, 0, 0, 0⟩).1.wordLength
          = 0
      · intro c hc
        simp only [hwl, Nat.add_zero] at hc
        rw [substringA_swap_tail_nil] at hc
        cases hc
      · rw [hm1]
        rw [substringA_ge s _ (s.length + 1) (by omega) (by omega)]
        exact drop_interior_nonspace s _
          (fun p h1 h2 => m2 p (by omega) (by omega) h2)

theorem claim7_witness :
    ((Char.ofNat 0) ≠ ' ') ∧
    ("this is a test of word wrap functionality for the lcd display now".toList.length ≤ 254) ∧
    payloadsOneWordB (printStringToLCD (Char.ofNat 0)
      "this is a test of word wrap functionality for the lcd display now".toList) = true :=
  ⟨by decide, by decide, claim7_no_word_split _ _ (by decide) (by decide)⟩

/-!  The final buffer character never reaches the scanned array. -/

lemma scanBuf_append_last (junk : Char) (s : List Char) (c : Char) :
    scanBuf junk (s ++ [c]) = s ++ [Char.ofNat 0, junk] := by
  unfold scanBuf
  rw [if_neg (by simp)]
  have hl : (s ++ [c]).length - 1 = s.length := by simp
  rw [hl, List.take_left' rfl]

lemma substringA_append_one (s : List Char) (d : Char) (a b : Nat)
    (ha : a ≤ s.length) (hb : b ≤ s.length) :
    substringA (s ++ [d]) a b = substringA s a b := by
  unfold substringA
  have hlen : (s ++ [d]).length = s.length + 1 := by simp
  have htake : ∀ n, n ≤ s.length → (s ++ [d]).take n = s.take n := by
    intro n hn
    rw [List.take_append_eq_append_take, show n - s.length = 0 from by omega]
    simp
  by_cases hba : b < a
  · simp only [if_pos hba, hlen]
    rw [if_neg (by omega), if_neg (by omega)]
    rw [Nat.min_eq_left (by omega), Nat.min_eq_left (by omega)]
    rw [htake a ha]
  · simp only [if_neg hba, hlen]
    rw [if_neg (by omega)]
    by_cases hLa : s.length ≤ a
    · rw [if_pos hLa]
      apply List.drop_eq_nil_of_le
      rw [List.length_take]
      omega
    · rw [if_neg hLa]
      rw [Nat.min_eq_left (by omega), Nat.min_eq_left hb]
      rw [htake b hb]

lemma renderLoop_lockstep (junk : Char) (s : List Char) (hj : junk ≠ ' ')
    (c c' : Char) :
    ∀ (lst : List Char) (offset : Nat) (st : RenderState),
      lst = (s ++ [Char.ofNat 0, junk]).drop offset →
      offset = st.lastSpace + st.wordLength →
      renderLoop (s ++ [c]) lst offset st =
        renderLoop (s ++ [c']) lst offset st := by
  intro lst
  induction lst with
  | nil => intro offset st _ _; rfl
  | cons ch rest ih =>
    intro offset st hlst hinv1
    have hhead : (s ++ [Char.ofNat 0, junk])[offset]? = some ch := by
      have hh := List.head?_drop (s ++ [Char.ofNat 0, junk]) offset
      rw [← hlst] at hh
      simpa using hh.symm
    have hrest : rest = (s ++ [Char.ofNat 0, junk]).drop (offset + 1) := by
      have hh : (s ++ [Char.ofNat 0, junk]).drop (offset + 1) =
          ((s ++ [Char.ofNat 0, junk]).drop offset).drop 1 := by
        rw [List.drop_drop]
      rw [hh, ← hlst, List.drop_succ_cons, List.drop_zero]
    by_cases hch : ch = ' '
    · subst hch
      have hoffL : offset < s.length := by
        by_contra hcon
        rw [List.getElem?_append_right (by omega)] at hhead
        have hd : offset - s.length = 0 ∨ offset - s.length = 1 ∨
            2 ≤ offset - s.length := by omega
        rcases hd with h1 | h1 | h1
        · rw [h1, List.getElem?_cons_zero] at hhead
          exact absurd (Option.some.inj hhead) (by decide)
        · rw [h1, List.getElem?_cons_succ, List.getElem?_cons_zero] at hhead
          exact absurd (Option.some.inj hhead) hj
        · rw [List.getElem?_eq_none (by simp; omega)] at hhead
          exact Option.noConfusion hhead
      have hpw : printWord (s ++ [c]) st offset =
          printWord (s ++ [c']) st offset := by
        unfold printWord
        rw [substringA_append_one s c st.lastSpace
              (st.lastSpace + st.wordLength) (by omega) (by omega),
            substringA_append_one s c' st.lastSpace
              (st.lastSpace + st.wordLength) (by omega) (by omega),
            substringA_append_one s c (st.lastSpace + 1)
              (st.lastSpace + st.wordLength) (by omega) (by omega),
            substringA_append_one s c' (st.lastSpace + 1)
              (st.lastSpace + st.wordLength) (by omega) (by omega)]
      rw [renderLoop_cons_space, renderLoop_cons_space, hpw]
      rw [ih (offset + 1)
        ⟨(printWord (s ++ [c']) st offset).1.indexSpace, offset, 1,
         (printWord (s ++ [c']) st offset).1.currRow⟩ hrest rfl]
    · rw [renderLoop_cons_nonspace _ _ _ _ _ hch,
          renderLoop_cons_nonspace _ _ _ _ _ hch]
      exact ih (offset + 1) ⟨st.indexSpace, st.lastSpace, st.wordLength + 1,
        st.currRow⟩ hrest
        (by show offset + 1 = st.lastSpace + (st.wordLength + 1); omega)

/-- Claim C10 (confirmed): for a non-empty buffer `s ++ [c]`, the scanned
char array never contains the final character `c` — `toCharArray` with size
equal to the string length copies only `length - 1` characters, writes the
NUL terminator where the final character would be, and the loop also reads
the uninitialized byte: the array is `s ++ [NUL, junk]` whatever `c` is.
Consequently a trailing space triggers no in-loop flush, and the commands
emitted by the scan loop are identical whatever the final character is; the
final character can only be consumed by the terminal end-of-buffer flush. -/
theorem claim10_final_char_not_scanned (junk : Char) (s : List Char)
    (c c' : Char) (hj : junk ≠ ' ') (hL : (s ++ [c]).length ≤ 254) :
    scanBuf junk (s ++ [c]) = s ++ [Char.ofNat 0, junk] ∧
    renderLoopOut junk (s ++ [c]) = renderLoopOut junk (s ++ [c']) := by
  refine ⟨scanBuf_append_last junk s c, ?_⟩
  unfold renderLoopOut
  rw [scanBuf_append_last, scanBuf_append_last]
  rw [renderLoop_lockstep junk s hj c c' (s ++ [Char.ofNat 0, junk]) 0
    ⟨0, 0, 0, 0⟩ (List.drop_zero _).symm rfl]

theorem claim10_witness :
    ((Char.ofNat 0) ≠ ' ') ∧ (("ab cd".toList ++ [' ']).length ≤ 254) ∧
    (scanBuf (Char.ofNat 0) ("ab cd".toList ++ [' ']) =
       "ab cd".toList ++ [Char.ofNat 0, Char.ofNat 0] ∧
     renderLoopOut (Char.ofNat 0) ("ab cd".toList ++ [' ']) =
       renderLoopOut (Char.ofNat 0) ("ab cd".toList ++ ['x'])) :=
  ⟨by decide, by decide,
    claim10_final_char_not_scanned _ _ ' ' 'x' (by decide) (by decide)⟩
